import Mathlib

/-!
# axfr: zone-transfer pipeline of `main.go`

A shallow embedding of `getNameservers`, `zoneTransfer` and the domain loop of
`main`, with the network replaced by explicit outcomes.

Conventions
* a Go `string` is a `String`; the separators the program uses (tab, `@`,
  newline, dot) are one-byte ASCII, so splitting on bytes and on characters
  agree;
* a Go `error` is `Option GoError` (`none` is `nil`);
* a Go function that can panic at run time (index out of range) returns an
  `Option`: `none` is the panic, `some v` is the returned value `v`;
* `uint16`/`uint32` header fields are `Nat`; the program never does arithmetic
  on them.
-/

namespace Axfr

/-! ## The Go `strings` functions the program calls -/

namespace strings

/-- Fields of a character list cut at every occurrence of `sep`; a list with
`k` separators has `k + 1` fields, the empty list has the single field `[]`. -/
def splitChars (sep : Char) : List Char → List (List Char)
  | [] => [[]]
  | c :: cs =>
    if c = sep then [] :: splitChars sep cs
    else
      match splitChars sep cs with
      | [] => [[c]]
      | f :: fs => (c :: f) :: fs

/-- Go `strings.Split(s, sep)` for a separator that is the single character
`sep` (the program only passes "\t" and "@"). -/
def Split (s : String) (sep : Char) : List String :=
  (splitChars sep s.data).map String.mk

/-- Go `strings.Contains(s, sep)` for a one-character `sep`. -/
def Contains (s : String) (sep : Char) : Bool :=
  s.data.contains sep

/-- Go `strings.TrimSuffix(s, suffix)`: `s` without the trailing `suffix`, or
`s` itself when it does not end in `suffix`. -/
def TrimSuffix (s suffix : String) : String :=
  if suffix.data.isSuffixOf s.data then
    String.mk (s.data.take (s.data.length - suffix.data.length))
  else s

end strings

/-! ## Data model -/

/-- A Go `error` value, identified by its message. -/
abbrev GoError := String

/-- Header of a resource record (`dns.RR_Header`). -/
structure RR_Header where
  Name : String
  Rrtype : Nat
  Class : Nat
  Ttl : Nat
  deriving DecidableEq

/-- The dynamic Go type of a record: `*dns.NS` with its `Ns` field, or any
other record type, given by the name `%T` prints for it. -/
inductive RRKind where
  | NS (Ns : String)
  | other (goType : String)
  deriving DecidableEq

/-- A resource record as the program sees it (`dns.RR`): its header, its
dynamic type and the text its `String()` method returns. -/
structure RR where
  Hdr : RR_Header
  kind : RRKind
  text : String
  deriving DecidableEq

/-- What the verb `%T` prints for a record. -/
def RR.goType (rr : RR) : String :=
  match rr.kind with
  | RRKind.NS _ => "*dns.NS"
  | RRKind.other t => t

/-- One message of a transfer (`dns.Envelope`). -/
structure Envelope where
  RR : List RR
  Error : Option GoError
  deriving DecidableEq

/-- A DNS response as far as `getNameservers` reads it (`dns.Msg`). -/
structure Msg where
  Rcode : Nat
  Answer : List RR
  deriving DecidableEq

/-- The library constant `dns.RcodeSuccess`. -/
def RcodeSuccess : Nat := 0

structure ZoneTransferResultRecords where
  Name : String
  /-- The Go field `Type` (a reserved word here). -/
  Type_ : String
  TTL : Nat
  Value : String
  deriving DecidableEq

structure ZoneTransferResult where
  Domain : String
  Nameserver : String
  Records : List ZoneTransferResultRecords
  deriving DecidableEq

/-- A Go `map[uint16]string` such as `dns.TypeToString`: `none` for a key that
is not in the map. -/
abbrev TypeTable := Nat → Option String

/-- Go map indexing `m[k]`: the zero value `""` for a key that is absent. -/
def mapIndex (m : TypeTable) (k : Nat) : String :=
  match m k with
  | some v => v
  | none => ""

/-- Modelled from the spec: the table `dns.TypeToString` of the DNS library,
which is not part of this repository, restricted to the ten common types the
spec says it must cover, under their IANA codes. -/
def TypeToString : TypeTable := fun code =>
  if code = 1 then some "A"
  else if code = 2 then some "NS"
  else if code = 5 then some "CNAME"
  else if code = 6 then some "SOA"
  else if code = 12 then some "PTR"
  else if code = 15 then some "MX"
  else if code = 16 then some "TXT"
  else if code = 28 then some "AAAA"
  else if code = 33 then some "SRV"
  else if code = 257 then some "CAA"
  else none

/-! ## `zoneTransfer` -/

/-- The string `fmt.Sprintf("%T\t%[1]s\n", rr)`. -/
def formatted (rr : RR) : String :=
  rr.goType ++ "\t" ++ rr.text ++ "\n"

/-- Lines 246-248: the value pulled out of the formatted record. Indexing the
split at 5 panics when there are fewer than six fields. -/
def recordValue (rr : RR) : Option String :=
  match (strings.Split (formatted rr) '\t')[5]? with
  | none => none
  | some v => some (strings.TrimSuffix v "\n")

/-- Lines 246-255: the record appended for `rr`. -/
def normalize (tbl : TypeTable) (rr : RR) : Option ZoneTransferResultRecords :=
  match recordValue rr with
  | none => none
  | some recordValue =>
    some { Type_ := mapIndex tbl rr.Hdr.Rrtype
           Name := rr.Hdr.Name
           TTL := rr.Hdr.Ttl
           Value := recordValue }

/-- Lines 244-256: the loop over `envelope.RR`, appending to `resultRecords`. -/
def normalizeRecords (tbl : TypeTable) :
    List RR → List ZoneTransferResultRecords → Option (List ZoneTransferResultRecords)
  | [], resultRecords => some resultRecords
  | rr :: rest, resultRecords =>
    match normalize tbl rr with
    | none => none
    | some r => normalizeRecords tbl rest (resultRecords ++ [r])

/-- Lines 238-261: the loop over the envelopes of the channel. -/
def zoneTransferLoop (tbl : TypeTable) (result : ZoneTransferResult) :
    List Envelope → Option (ZoneTransferResult × Option GoError)
  | [] => some (result, none)
  | envelope :: ch =>
    match envelope.Error with
    | some e => some (result, some e)
    | none =>
      match normalizeRecords tbl envelope.RR [] with
      | none => none
      | some resultRecords =>
        zoneTransferLoop tbl { result with Records := resultRecords } ch

/-- `zoneTransfer(domain, nameserver)`, where `tIn` is what `t.In` gives for
this pair: the setup error, or the envelopes the channel delivers until it is
closed. -/
def zoneTransfer (tbl : TypeTable) (tIn : Except GoError (List Envelope))
    (domain nameserver : String) : Option (ZoneTransferResult × Option GoError) :=
  let result : ZoneTransferResult :=
    { Domain := domain, Nameserver := nameserver, Records := [] }
  match tIn with
  | Except.error err => some (result, some err)
  | Except.ok ch => zoneTransferLoop tbl result ch

/-! ## `getNameservers` -/

/-- Lines 200-204: the loop over `r.Answer`, appending to `nameservers`. -/
def collectNS : List RR → List String → List String
  | [], nameservers => nameservers
  | ans :: rest, nameservers =>
    match ans.kind with
    | RRKind.NS ns => collectNS rest (nameservers ++ [strings.TrimSuffix ns "."])
    | RRKind.other _ => collectNS rest nameservers

/-- `getNameservers(domain)`, where `exchange` is what `c.Exchange` gives for
the NS query of `domain`: the transport error, or the response. -/
def getNameservers (exchange : Except GoError Msg) : List String × Option GoError :=
  match exchange with
  | Except.error err => ([""], some err)
  | Except.ok r =>
    if r.Rcode ≠ RcodeSuccess then
      ([""], some "error: rcode != dns.RcodeSuccess")
    else
      (collectNS r.Answer [], none)

/-! ## The domain loop of `main` -/

/-- A call the loop makes to one of the two network functions. -/
inductive Call where
  | getNameservers (domain : String)
  | zoneTransfer (domain nameserver : String)
  deriving DecidableEq

/-- State of the loop: the slice `zoneTransferResults`, and (instrumentation)
the calls made so far, oldest first. -/
structure LoopState where
  zoneTransferResults : List ZoneTransferResult
  calls : List Call
  deriving DecidableEq

/-- Outcome of `getNameservers(domain)` for each domain. -/
abbrev Resolver := String → List String × Option GoError

/-- Outcome of `zoneTransfer(domain, ns)` for each pair; `none` when the call
panics. -/
abbrev Transferrer := String → String → Option (ZoneTransferResult × Option GoError)

/-- Lines 139-169: the loop over `nameservers`. The result of every call is
appended, whatever its error; logging and the CSV rows leave the state alone. -/
def transferAll (zt : Transferrer) (domain : String) :
    List String → LoopState → Option LoopState
  | [], st => some st
  | ns :: rest, st =>
    match zt domain ns with
    | none => none
    | some (zoneTransferResult, _) =>
      transferAll zt domain rest
        { zoneTransferResults := st.zoneTransferResults ++ [zoneTransferResult]
          calls := st.calls ++ [Call.zoneTransfer domain ns] }

/-- Lines 118-169: the body of the loop over `domains`, for one token. -/
def processDomain (gn : Resolver) (zt : Transferrer) (domain : String)
    (st : LoopState) : Option LoopState :=
  if domain = "" then some st
  else if strings.Contains domain '@' then
    let splitDomain := strings.Split domain '@'
    match splitDomain[0]?, splitDomain[1]? with
    | some d, some ns => transferAll zt d ([] ++ [ns]) st
    | _, _ => none
  else
    let st1 : LoopState := { st with calls := st.calls ++ [Call.getNameservers domain] }
    match gn domain with
    | (_, some _) => some st1
    | (nameservers, none) => transferAll zt domain nameservers st1

/-- Lines 115-170: the loop over `domains`. -/
def domainLoop (gn : Resolver) (zt : Transferrer) :
    List String → LoopState → Option LoopState
  | [], st => some st
  | domain :: rest, st =>
    match processDomain gn zt domain st with
    | none => none
    | some st1 => domainLoop gn zt rest st1

/-- The network as the program meets it: the answer to the NS query for a
domain, and what a transfer of a domain from a nameserver delivers. -/
structure Network where
  Exchange : String → Except GoError Msg
  In : String → String → Except GoError (List Envelope)

/-- Lines 115-170 over a given network: the loop started from the empty
`zoneTransferResults`, calling the two functions above. -/
def run (tbl : TypeTable) (net : Network) (domains : List String) : Option LoopState :=
  domainLoop (fun domain => getNameservers (net.Exchange domain))
    (fun domain ns => zoneTransfer tbl (net.In domain ns) domain ns)
    domains { zoneTransferResults := [], calls := [] }

/-- Lines 118-169 over a given network: the loop body for one token, calling
the two functions above. -/
def runToken (tbl : TypeTable) (net : Network) (domain : String) (st : LoopState) :
    Option LoopState :=
  processDomain (fun d => getNameservers (net.Exchange d))
    (fun d ns => zoneTransfer tbl (net.In d ns) d ns) domain st

/-! ## The report as the spec words it -/

/-- The domain of a token `domain@nameserver`, as the spec words it: what
stands before the first `@`. -/
def overrideDomain (token : String) : String :=
  String.mk (token.data.takeWhile (fun c => c != '@'))

/-- The nameserver of a token `domain@nameserver`, as the spec words it: what
stands after the first `@`, up to the next `@` if there is one. -/
def overrideNameserver (token : String) : String :=
  String.mk (((token.data.dropWhile (fun c => c != '@')).drop 1).takeWhile (fun c => c != '@'))

/-- The (domain, nameserver) pairs the spec has the orchestrator attempt for a
token: none for the empty token, the override pair for `domain@ns`, and
otherwise one pair per resolved nameserver, none when resolution fails. -/
def attempts (gn : Resolver) (token : String) : List (String × String) :=
  if token = "" then []
  else if '@' ∈ token.data then
    [(overrideDomain token, overrideNameserver token)]
  else
    match gn token with
    | (_, some _) => []
    | (nameservers, none) => nameservers.map (fun ns => (token, ns))

/-- The Aggregate Report as the spec words it: one result per attempted pair,
tokens in input order, nameservers in order. -/
def aggregateReport (gn : Resolver)
    (zt : String → String → ZoneTransferResult × Option GoError)
    (tokens : List String) : List ZoneTransferResult :=
  (tokens.map (fun token => (attempts gn token).map (fun p => (zt p.1 p.2).1))).flatten

/-- The records a transfer is left holding after the envelopes `ch`, all free
of errors: those of the last envelope, none for an empty stream. -/
def lastRecords (tbl : TypeTable) (ch : List Envelope) :
    Option (List ZoneTransferResultRecords) :=
  match ch.getLast? with
  | none => some []
  | some envelope => normalizeRecords tbl envelope.RR []

/-- The envelopes delivered before the first one that reports an error. -/
def beforeError : List Envelope → List Envelope
  | [] => []
  | envelope :: ch =>
    match envelope.Error with
    | some _ => []
    | none => envelope :: beforeError ch

/-- The error of the first envelope that reports one. -/
def firstError : List Envelope → Option GoError
  | [] => none
  | envelope :: ch =>
    match envelope.Error with
    | some e => some e
    | none => firstError ch

/-- A hostname without its trailing root dot, as the spec words it: the last
character is removed when it is a dot. -/
def stripRootDot (host : String) : String :=
  if host.data.getLast? = some '.' then String.mk host.data.dropLast else host

/-- The hostname the spec has the resolver return for an answer record: the
nameserver of an NS record, root dot stripped; nothing for any other record. -/
def nameserverOf (rr : RR) : Option String :=
  match rr.kind with
  | RRKind.NS ns => some (stripRootDot ns)
  | RRKind.other _ => none

/-- The failures the spec has the resolver report: the exchange failed, or the
response code is not success. -/
def exchangeFailed (exchange : Except GoError Msg) : Prop :=
  match exchange with
  | Except.error _ => True
  | Except.ok r => r.Rcode ≠ RcodeSuccess

/-- The pair of a transfer call; nothing for a resolver call. -/
def Call.pair : Call → Option (String × String)
  | Call.getNameservers _ => none
  | Call.zoneTransfer domain nameserver => some (domain, nameserver)

/-! ## Sample inputs -/

/-- An A record `example.com. 3600 IN A 192.0.2.1`. -/
def sampleA : RR :=
  { Hdr := { Name := "example.com.", Rrtype := 1, Class := 1, Ttl := 3600 }
    kind := RRKind.other "*dns.A"
    text := "example.com.\t3600\tIN\tA\t192.0.2.1" }

/-- An OPT pseudo-record: its `String()` is a comment block without the tabbed
header columns. -/
def sampleOPT : RR :=
  { Hdr := { Name := ".", Rrtype := 41, Class := 4096, Ttl := 0 }
    kind := RRKind.other "*dns.OPT"
    text := "\n;; OPT PSEUDOSECTION:\n; EDNS: version 0; flags:; udp: 4096" }

/-- A record of the private-use type 65399, printed in the generic form. -/
def sampleUnknown : RR :=
  { Hdr := { Name := "example.com.", Rrtype := 65399, Class := 1, Ttl := 3600 }
    kind := RRKind.other "*dns.RFC3597"
    text := "example.com.\t3600\tIN\tTYPE65399\t\\# 4 0a000001" }

/-- A record whose RDATA text holds a tab, as the raw data of a NULL record
may. -/
def sampleTab : RR :=
  { Hdr := { Name := "example.com.", Rrtype := 10, Class := 1, Ttl := 3600 }
    kind := RRKind.other "*dns.NULL"
    text := "example.com.\t3600\tIN\tNULL\ta\tb" }

/-- The SOA record that opens and closes a transfer of example.com. -/
def sampleSOA : RR :=
  { Hdr := { Name := "example.com.", Rrtype := 6, Class := 1, Ttl := 3600 }
    kind := RRKind.other "*dns.SOA"
    text := "example.com.\t3600\tIN\tSOA\tns1.example.com. admin.example.com. 1 7200 900 1209600 300" }

/-- The normalized A record. -/
def sampleARecord : ZoneTransferResultRecords :=
  { Name := "example.com.", Type_ := "A", TTL := 3600, Value := "192.0.2.1" }

/-- The normalized SOA record. -/
def sampleSOARecord : ZoneTransferResultRecords :=
  { Name := "example.com.", Type_ := "SOA", TTL := 3600,
    Value := "ns1.example.com. admin.example.com. 1 7200 900 1209600 300" }

/-- A transfer cut short: a first message with the SOA and an A record, then
an envelope that reports a read error. -/
def sampleCutStream : List Envelope :=
  [{ RR := [sampleSOA, sampleA], Error := none },
   { RR := [], Error := some "unexpected EOF" }]

/-- A complete transfer without errors whose last message holds an OPT record
between an A record and the closing SOA. -/
def sampleOPTStream : List Envelope :=
  [{ RR := [sampleSOA, sampleA], Error := none },
   { RR := [sampleA, sampleOPT, sampleSOA], Error := none }]

/-- A transfer whose first message holds an OPT record after the SOA, and
whose next envelope reports a read error. -/
def sampleOPTCutStream : List Envelope :=
  [{ RR := [sampleSOA, sampleOPT], Error := none },
   { RR := [], Error := some "unexpected EOF" }]

/-- A complete transfer without errors: one message with the SOA, an A record
and the closing SOA. -/
def sampleGoodStream : List Envelope :=
  [{ RR := [sampleSOA, sampleA, sampleSOA], Error := none }]

/-- The NS record `example.com. 3600 IN NS host`. -/
def sampleNS (host : String) : RR :=
  { Hdr := { Name := "example.com.", Rrtype := 2, Class := 1, Ttl := 3600 }
    kind := RRKind.NS host
    text := "example.com.\t3600\tIN\tNS\t" ++ host }

/-- A network on which example.org resolves to ns1.example.org, the zone
example.com transfers completely, and every other transfer delivers the stream
with the OPT record. -/
def sampleNetwork : Network :=
  { Exchange := fun domain =>
      if domain = "example.org" then
        Except.ok { Rcode := 0, Answer := [sampleNS "ns1.example.org."] }
      else Except.error "i/o timeout"
    In := fun domain _ =>
      if domain = "example.com" then Except.ok sampleGoodStream
      else Except.ok sampleOPTStream }

/-- The result of the complete transfer of example.com from ns1.example.com. -/
def sampleResult : ZoneTransferResult :=
  { Domain := "example.com", Nameserver := "ns1.example.com",
    Records := [sampleSOARecord, sampleARecord, sampleSOARecord] }

/-! ## Facts about the string functions -/

namespace strings

theorem splitChars_ne_nil (sep : Char) (xs : List Char) : splitChars sep xs ≠ [] := by
  induction xs with
  | nil => simp [splitChars]
  | cons c cs ih =>
    unfold splitChars
    split
    · simp
    · split <;> simp

/-- A list without the separator is its own single field. -/
theorem splitChars_of_not_mem (sep : Char) (xs : List Char) (h : sep ∉ xs) :
    splitChars sep xs = [xs] := by
  induction xs with
  | nil => rfl
  | cons c cs ih =>
    have hc : ¬ c = sep := fun e => h (by simp [e])
    have hcs : sep ∉ cs := fun m => h (List.mem_cons_of_mem _ m)
    simp [splitChars, hc, ih hcs]

/-- The first field ends at the first separator. -/
theorem splitChars_append_sep (sep : Char) (xs rest : List Char) (h : sep ∉ xs) :
    splitChars sep (xs ++ sep :: rest) = xs :: splitChars sep rest := by
  induction xs with
  | nil => simp [splitChars]
  | cons c cs ih =>
    have hc : ¬ c = sep := fun e => h (by simp [e])
    have hcs : sep ∉ cs := fun m => h (List.mem_cons_of_mem _ m)
    simp [splitChars, hc, ih hcs]

/-- A list with `k` separators has `k + 1` fields. -/
theorem length_splitChars (sep : Char) (xs : List Char) :
    (splitChars sep xs).length = xs.count sep + 1 := by
  induction xs with
  | nil => rfl
  | cons c cs ih =>
    unfold splitChars
    by_cases hc : c = sep
    · subst hc
      simp [ih]
    · have hne : (c == sep) = false := by simpa using hc
      rw [if_neg hc, List.count_cons, hne]
      cases hs : splitChars sep cs with
      | nil => exact absurd hs (splitChars_ne_nil sep cs)
      | cons f fs =>
        rw [hs] at ih
        simpa using ih

/-- The first field is what stands before the first separator. -/
theorem splitChars_getD_zero (sep : Char) (xs : List Char) :
    (splitChars sep xs).getD 0 [] = xs.takeWhile (fun c => c != sep) := by
  induction xs with
  | nil => rfl
  | cons c cs ih =>
    unfold splitChars
    by_cases hc : c = sep
    · subst hc
      simp
    · rw [if_neg hc]
      have hne : (c != sep) = true := by simpa using hc
      rw [List.takeWhile_cons, hne]
      cases hs : splitChars sep cs with
      | nil => exact absurd hs (splitChars_ne_nil sep cs)
      | cons f fs =>
        rw [hs] at ih
        simp only [List.getD_cons_zero] at ih
        simp [ih]

/-- The second field is what stands between the first separator and the next. -/
theorem splitChars_getD_one (sep : Char) (xs : List Char) (h : sep ∈ xs) :
    (splitChars sep xs).getD 1 [] =
      ((xs.dropWhile (fun c => c != sep)).drop 1).takeWhile (fun c => c != sep) := by
  induction xs with
  | nil => simp at h
  | cons c cs ih =>
    unfold splitChars
    by_cases hc : c = sep
    · subst hc
      have h0 := splitChars_getD_zero c cs
      simp only [if_true, List.getD_cons_succ, h0]
      simp [List.dropWhile_cons]
    · rw [if_neg hc]
      have hne : (c != sep) = true := by simpa using hc
      have hcs : sep ∈ cs := by
        rcases List.mem_cons.mp h with e | m
        · exact absurd e.symm hc
        · exact m
      rw [List.dropWhile_cons, hne]
      simp only [if_true]
      rw [← ih hcs]
      cases hs : splitChars sep cs with
      | nil => exact absurd hs (splitChars_ne_nil sep cs)
      | cons f fs => simp

theorem length_Split (s : String) (sep : Char) :
    (Split s sep).length = s.data.count sep + 1 := by
  simp [Split, length_splitChars]

/-- Trimming the suffix that was just appended gives the string back. -/
theorem TrimSuffix_append (xs suffix : List Char) :
    TrimSuffix (String.mk (xs ++ suffix)) (String.mk suffix) = String.mk xs := by
  have h : suffix.isSuffixOf (xs ++ suffix) = true :=
    List.isSuffixOf_iff_suffix.mpr (List.suffix_append xs suffix)
  simp [TrimSuffix, h]

end strings

/-! ## Facts about the record normalizer -/

/-- The normalizer returns a record exactly when the value can be pulled out
of the formatted string. -/
theorem normalize_eq (tbl : TypeTable) (rr : RR) :
    normalize tbl rr = (recordValue rr).map (fun v =>
      { Name := rr.Hdr.Name, Type_ := mapIndex tbl rr.Hdr.Rrtype,
        TTL := rr.Hdr.Ttl, Value := v }) := by
  unfold normalize
  cases recordValue rr <;> rfl

/-- The index 5 is in bounds exactly when the formatted string holds at least
five tabs. -/
theorem recordValue_isSome_iff (rr : RR) :
    (recordValue rr).isSome = true ↔ 5 ≤ (formatted rr).data.count '\t' := by
  unfold recordValue
  have hlen := strings.length_Split (formatted rr) '\t'
  cases h : (strings.Split (formatted rr) '\t')[5]? with
  | none =>
    have := List.getElem?_eq_none_iff.mp h
    simp
    omega
  | some v =>
    have : 5 < (strings.Split (formatted rr) '\t').length := by
      by_contra hc
      have := List.getElem?_eq_none_iff.mpr (Nat.le_of_not_lt hc)
      simp [h] at this
    simp
    omega

/-- The normalizer accepts every record whose formatted string holds at least
five tabs, and panics on every other record. -/
theorem normalize_isSome_iff (tbl : TypeTable) (rr : RR) :
    (normalize tbl rr).isSome = true ↔ 5 ≤ (formatted rr).data.count '\t' := by
  rw [normalize_eq, Option.isSome_map']
  exact recordValue_isSome_iff rr

/-- The value of a record whose formatted string is six or more fields with
tab-free leading columns. -/
theorem recordValue_of_columns (rr : RR) (owner ttl cls typ rdata : String)
    (htext : rr.text = owner ++ "\t" ++ ttl ++ "\t" ++ cls ++ "\t" ++ typ ++ "\t" ++ rdata)
    (hgo : '\t' ∉ rr.goType.data) (howner : '\t' ∉ owner.data) (httl : '\t' ∉ ttl.data)
    (hcls : '\t' ∉ cls.data) (htyp : '\t' ∉ typ.data) (hrdata : '\t' ∉ rdata.data) :
    recordValue rr = some rdata := by
  have hnl : '\t' ∉ rdata.data ++ ['\n'] := by
    simp only [List.mem_append, List.mem_singleton, not_or]
    exact ⟨hrdata, by decide⟩
  have hdata : (formatted rr).data =
      rr.goType.data ++ '\t' :: (owner.data ++ '\t' :: (ttl.data ++ '\t' ::
        (cls.data ++ '\t' :: (typ.data ++ '\t' :: (rdata.data ++ ['\n']))))) := by
    have ht : ("\t" : String).data = ['\t'] := rfl
    have hn : ("\n" : String).data = ['\n'] := rfl
    simp [formatted, htext, String.data_append, ht, hn]
  have hsplit : strings.Split (formatted rr) '\t' =
      [rr.goType, owner, ttl, cls, typ, String.mk (rdata.data ++ ['\n'])] := by
    unfold strings.Split
    rw [hdata, strings.splitChars_append_sep _ _ _ hgo,
      strings.splitChars_append_sep _ _ _ howner, strings.splitChars_append_sep _ _ _ httl,
      strings.splitChars_append_sep _ _ _ hcls, strings.splitChars_append_sep _ _ _ htyp,
      strings.splitChars_of_not_mem _ _ hnl]
    rfl
  unfold recordValue
  rw [hsplit]
  have := strings.TrimSuffix_append rdata.data ['\n']
  simpa using this


/-- Claim C4, as amended: for every record the normalizer accepts, the type is
the mnemonic the table holds for the record's type code, and the empty string
when the table holds none for it. -/
theorem normalize_type (tbl : TypeTable) (rr : RR) (r : ZoneTransferResultRecords)
    (h : normalize tbl rr = some r) :
    (∀ m, tbl rr.Hdr.Rrtype = some m → r.Type_ = m) ∧
      (tbl rr.Hdr.Rrtype = none → r.Type_ = "") := by
  rw [normalize_eq] at h
  cases hv : recordValue rr with
  | none => simp [hv] at h
  | some v =>
    simp only [hv, Option.map_some', Option.some.injEq] at h
    subst h
    constructor
    · intro m hm
      simp [mapIndex, hm]
    · intro hm
      simp [mapIndex, hm]

/-- Claim C4, witness: code 1 of the A record gives "A", and the code 65399,
which the table does not hold, gives the empty string. -/
theorem normalize_type_witness :
    ((∀ m, TypeToString sampleA.Hdr.Rrtype = some m → "A" = m) ∧
        (TypeToString sampleA.Hdr.Rrtype = none → "A" = "")) ∧
      ((∀ m, TypeToString sampleUnknown.Hdr.Rrtype = some m → "" = m) ∧
        (TypeToString sampleUnknown.Hdr.Rrtype = none → "" = "")) :=
  ⟨normalize_type TypeToString sampleA
      { Name := "example.com.", Type_ := "A", TTL := 3600, Value := "192.0.2.1" } (by decide),
    normalize_type TypeToString sampleUnknown
      { Name := "example.com.", Type_ := "", TTL := 3600, Value := "\\# 4 0a000001" }
      (by decide)⟩

/-- Claim C4, counterexample: the type code 65399 is not in the table, and the
record normalizes to the empty type, not to "TYPE65399". -/
theorem normalize_type_unknown_code :
    sampleUnknown.Hdr.Rrtype = 65399 ∧ TypeToString 65399 = none ∧
      normalize TypeToString sampleUnknown =
        some { Name := "example.com.", Type_ := "", TTL := 3600, Value := "\\# 4 0a000001" } ∧
      (normalize TypeToString sampleUnknown).map (fun r => r.Type_) ≠ some "TYPE65399" := by
  decide

/-- Claim C5, as amended: for every record whose presentation string is four
tab-free columns, each followed by a tab, followed by an RDATA text without a
tab (and whose Go type name has no tab), the normalized record has that whole
RDATA text as value, the header's owner name as name and the header's TTL as
ttl. -/
theorem normalize_of_columns (tbl : TypeTable) (rr : RR) (owner ttl cls typ rdata : String)
    (htext : rr.text = owner ++ "\t" ++ ttl ++ "\t" ++ cls ++ "\t" ++ typ ++ "\t" ++ rdata)
    (hgo : '\t' ∉ rr.goType.data) (howner : '\t' ∉ owner.data) (httl : '\t' ∉ ttl.data)
    (hcls : '\t' ∉ cls.data) (htyp : '\t' ∉ typ.data) (hrdata : '\t' ∉ rdata.data) :
    normalize tbl rr =
      some { Name := rr.Hdr.Name, Type_ := mapIndex tbl rr.Hdr.Rrtype,
             TTL := rr.Hdr.Ttl, Value := rdata } := by
  rw [normalize_eq, recordValue_of_columns rr owner ttl cls typ rdata htext hgo howner httl
    hcls htyp hrdata]
  rfl

/-- Claim C5, witness: the A record with address 192.0.2.1 and TTL 3600. -/
theorem normalize_of_columns_witness :
    normalize TypeToString sampleA =
      some { Name := "example.com.", Type_ := "A", TTL := 3600, Value := "192.0.2.1" } :=
  normalize_of_columns TypeToString sampleA "example.com." "3600" "IN" "A" "192.0.2.1"
    (by decide) (by decide) (by decide) (by decide) (by decide) (by decide) (by decide)

/-- Claim C5, counterexample: a record whose presentation string is the four
columns followed by the RDATA text "a<tab>b" normalizes to the value "a". -/
theorem normalize_value_tab_in_rdata :
    sampleTab.text =
        "example.com." ++ "\t" ++ "3600" ++ "\t" ++ "IN" ++ "\t" ++ "NULL" ++ "\t" ++ "a\tb" ∧
      normalize TypeToString sampleTab =
        some { Name := "example.com.", Type_ := "", TTL := 3600, Value := "a" } ∧
      (normalize TypeToString sampleTab).map (fun r => r.Value) ≠ some "a\tb" := by
  decide

/-- Claim C6, at the failing input: the formatted OPT record has a single tab,
the split has two fields, and indexing it at 5 panics, whatever the table. -/
theorem normalize_sampleOPT (tbl : TypeTable) :
    (strings.Split (formatted sampleOPT) '\t').length = 2 ∧
      normalize tbl sampleOPT = none := by
  refine ⟨by decide, ?_⟩
  rw [normalize_eq]
  have h : recordValue sampleOPT = none := by decide
  rw [h]
  rfl

/-! ## Facts about `zoneTransfer` -/

/-- The accumulator of the record loop only ever grows at its end. -/
theorem normalizeRecords_acc (tbl : TypeTable) (rrs : List RR)
    (acc : List ZoneTransferResultRecords) :
    normalizeRecords tbl rrs acc = (normalizeRecords tbl rrs []).map (fun rs => acc ++ rs) := by
  induction rrs generalizing acc with
  | nil => simp [normalizeRecords]
  | cons rr rest ih =>
    unfold normalizeRecords
    cases hr : normalize tbl rr with
    | none => rfl
    | some r =>
      simp only [List.nil_append]
      rw [ih (acc ++ [r]), ih [r]]
      cases normalizeRecords tbl rest [] <;> simp

/-- The record loop returns `rs` exactly when `rs` lists, in order, the
normalized record of each record of the envelope. -/
theorem normalizeRecords_eq_some_iff (tbl : TypeTable) (rrs : List RR)
    (rs : List ZoneTransferResultRecords) :
    normalizeRecords tbl rrs [] = some rs ↔
      List.Forall₂ (fun rr r => normalize tbl rr = some r) rrs rs := by
  induction rrs generalizing rs with
  | nil =>
    simp only [normalizeRecords, Option.some.injEq, List.forall₂_nil_left_iff]
    exact eq_comm
  | cons rr rest ih =>
    unfold normalizeRecords
    cases hr : normalize tbl rr with
    | none =>
      constructor
      · intro h
        cases h
      · intro h
        cases h with
        | cons h1 _ => simp [hr] at h1
    | some r =>
      simp only [List.nil_append]
      rw [normalizeRecords_acc]
      constructor
      · intro h
        cases hrest : normalizeRecords tbl rest [] with
        | none => simp [hrest] at h
        | some rs1 =>
          simp only [hrest, Option.map_some', Option.some.injEq] at h
          subst h
          exact List.Forall₂.cons hr ((ih rs1).mp hrest)
      · intro h
        cases h with
        | cons h1 h2 =>
          rw [hr] at h1
          cases h1
          rw [(ih _).mpr h2]
          rfl

/-- The record loop returns exactly when the normalizer accepts every record. -/
theorem normalizeRecords_isSome_iff (tbl : TypeTable) (rrs : List RR) :
    (normalizeRecords tbl rrs []).isSome = true ↔
      ∀ rr ∈ rrs, 5 ≤ (formatted rr).data.count '\t' := by
  induction rrs with
  | nil => simp [normalizeRecords]
  | cons rr rest ih =>
    unfold normalizeRecords
    cases hr : normalize tbl rr with
    | none =>
      have hn := normalize_isSome_iff tbl rr
      rw [hr] at hn
      simp only [Option.isSome_none, Bool.false_eq_true, false_iff] at hn
      simp only [Option.isSome_none, Bool.false_eq_true, List.mem_cons, forall_eq_or_imp,
        false_iff, not_and]
      intro h
      exact absurd h hn
    | some r =>
      have hn := normalize_isSome_iff tbl rr
      rw [hr] at hn
      simp only [Option.isSome_some, true_iff] at hn
      simp only [List.nil_append, List.mem_cons, forall_eq_or_imp]
      rw [normalizeRecords_acc]
      cases hrest : normalizeRecords tbl rest [] with
      | none =>
        rw [hrest] at ih
        simp only [Option.isSome_none, Bool.false_eq_true, false_iff] at ih
        simp only [Option.map_none', Option.isSome_none, Bool.false_eq_true, false_iff, not_and]
        intro _
        exact ih
      | some rs1 =>
        rw [hrest] at ih
        simp only [Option.isSome_some, true_iff] at ih
        simp only [Option.map_some', Option.isSome_some, true_iff]
        exact ⟨hn, ih⟩

theorem lastRecords_cons (tbl : TypeTable) (envelope : Envelope) (ch : List Envelope) :
    lastRecords tbl (envelope :: ch) =
      if ch = [] then normalizeRecords tbl envelope.RR [] else lastRecords tbl ch := by
  cases ch with
  | nil => simp [lastRecords]
  | cons e2 rest => simp [lastRecords, List.getLast?_cons_cons]

/-- What the envelope loop returns, when it returns: the domain and nameserver
it was given, the error of the first envelope that reports one, and the records
of the last envelope delivered before that one (those it started with when
there is no such envelope). -/
theorem zoneTransferLoop_eq_some (tbl : TypeTable) (ch : List Envelope)
    (result res : ZoneTransferResult) (err : Option GoError)
    (h : zoneTransferLoop tbl result ch = some (res, err)) :
    res.Domain = result.Domain ∧ res.Nameserver = result.Nameserver ∧
      err = firstError ch ∧
      ((beforeError ch = [] ∧ res.Records = result.Records) ∨
        (beforeError ch ≠ [] ∧ lastRecords tbl (beforeError ch) = some res.Records)) := by
  induction ch generalizing result with
  | nil =>
    simp only [zoneTransferLoop, Option.some.injEq, Prod.mk.injEq] at h
    obtain ⟨h1, h2⟩ := h
    subst h1
    subst h2
    simp [firstError, beforeError]
  | cons envelope ch ih =>
    unfold zoneTransferLoop at h
    cases he : envelope.Error with
    | some e =>
      simp only [he, Option.some.injEq, Prod.mk.injEq] at h
      obtain ⟨h1, h2⟩ := h
      subst h1
      subst h2
      simp [firstError, beforeError, he]
    | none =>
      simp only [he] at h
      cases hn : normalizeRecords tbl envelope.RR [] with
      | none => simp [hn] at h
      | some resultRecords =>
        simp only [hn] at h
        obtain ⟨hd, hns, herr, hrec⟩ := ih _ h
        refine ⟨hd, hns, ?_, Or.inr ⟨?_, ?_⟩⟩
        · simp [firstError, he, herr]
        · simp [beforeError, he]
        · have hb : beforeError (envelope :: ch) = envelope :: beforeError ch := by
            simp [beforeError, he]
          rw [hb, lastRecords_cons]
          rcases hrec with ⟨hnil, hr⟩ | ⟨hnn, hr⟩
          · rw [if_pos hnil, hn, hr]
          · rw [if_neg hnn, hr]

/-- The envelope loop returns exactly when the normalizer accepts every record
of every envelope delivered before the first one that reports an error. -/
theorem zoneTransferLoop_isSome_iff (tbl : TypeTable) (ch : List Envelope)
    (result : ZoneTransferResult) :
    (zoneTransferLoop tbl result ch).isSome = true ↔
      ∀ envelope ∈ beforeError ch, ∀ rr ∈ envelope.RR,
        5 ≤ (formatted rr).data.count '\t' := by
  induction ch generalizing result with
  | nil => simp [zoneTransferLoop, beforeError]
  | cons envelope ch ih =>
    unfold zoneTransferLoop
    cases he : envelope.Error with
    | some e => simp [beforeError, he]
    | none =>
      have hb : beforeError (envelope :: ch) = envelope :: beforeError ch := by
        simp [beforeError, he]
      rw [hb]
      simp only [List.mem_cons, forall_eq_or_imp]
      have hn := normalizeRecords_isSome_iff tbl envelope.RR
      cases hr : normalizeRecords tbl envelope.RR [] with
      | none =>
        rw [hr] at hn
        simp only [Option.isSome_none, Bool.false_eq_true, false_iff] at hn
        simp only [Option.isSome_none, Bool.false_eq_true, false_iff, not_and]
        intro h
        exact absurd h hn
      | some resultRecords =>
        rw [hr] at hn
        simp only [Option.isSome_some, true_iff] at hn
        simp only [ih]
        exact ⟨fun h => ⟨hn, h⟩, fun h => h.2⟩

theorem beforeError_of_no_error (ch : List Envelope) (h : ∀ envelope ∈ ch, envelope.Error = none) :
    beforeError ch = ch ∧ firstError ch = none := by
  induction ch with
  | nil => simp [beforeError, firstError]
  | cons envelope ch ih =>
    have he : envelope.Error = none := h envelope (List.mem_cons_self _ _)
    have hrest := ih (fun e hm => h e (List.mem_cons_of_mem _ hm))
    simp [beforeError, firstError, he, hrest]

/-- On a stream without errors whose records the normalizer all accepts,
`zoneTransfer` returns no error and the records of the last envelope. -/
theorem zoneTransfer_last_envelope (tbl : TypeTable) (ch : List Envelope)
    (domain nameserver : String)
    (herr : ∀ envelope ∈ ch, envelope.Error = none)
    (hwf : ∀ envelope ∈ ch, ∀ rr ∈ envelope.RR, 5 ≤ (formatted rr).data.count '\t') :
    ∃ records, lastRecords tbl ch = some records ∧
      zoneTransfer tbl (Except.ok ch) domain nameserver =
        some ({ Domain := domain, Nameserver := nameserver, Records := records }, none) := by
  obtain ⟨hb, hf⟩ := beforeError_of_no_error ch herr
  have hsome := (zoneTransferLoop_isSome_iff tbl ch
    { Domain := domain, Nameserver := nameserver, Records := [] }).mpr (by rw [hb]; exact hwf)
  obtain ⟨⟨res, err⟩, hout⟩ := Option.isSome_iff_exists.mp hsome
  obtain ⟨hd, hns, he, hrec⟩ := zoneTransferLoop_eq_some tbl ch _ res err hout
  refine ⟨res.Records, ?_, ?_⟩
  · rcases hrec with ⟨hnil, hr⟩ | ⟨_, hr⟩
    · rw [hb] at hnil
      subst hnil
      simp [lastRecords, hr]
    · rw [hb] at hr
      exact hr
  · simp only [zoneTransfer]
    rw [hout, he, hf]
    cases res
    simp_all

/-- Whenever the normalizer accepts the records delivered before the first
error, `zoneTransfer` returns a result carrying its two arguments, and the
error is the setup error or that of the first envelope reporting one. -/
theorem zoneTransfer_returns (tbl : TypeTable) (tIn : Except GoError (List Envelope))
    (domain nameserver : String)
    (hwf : ∀ ch, tIn = Except.ok ch → ∀ envelope ∈ beforeError ch, ∀ rr ∈ envelope.RR,
      5 ≤ (formatted rr).data.count '\t') :
    ∃ res, res.Domain = domain ∧ res.Nameserver = nameserver ∧
      zoneTransfer tbl tIn domain nameserver =
        some (res, match tIn with
          | Except.error e => some e
          | Except.ok ch => firstError ch) := by
  cases tIn with
  | error e => exact ⟨_, rfl, rfl, rfl⟩
  | ok ch =>
    have hsome := (zoneTransferLoop_isSome_iff tbl ch
      { Domain := domain, Nameserver := nameserver, Records := [] }).mpr (hwf ch rfl)
    obtain ⟨⟨res, err⟩, hout⟩ := Option.isSome_iff_exists.mp hsome
    obtain ⟨hd, hns, he, _⟩ := zoneTransferLoop_eq_some tbl ch _ res err hout
    refine ⟨res, hd, hns, ?_⟩
    simp only [zoneTransfer]
    rw [hout, he]

/-- Claim C1, at the failing input: a stream of two envelopes, neither
reporting an error, whose last envelope holds an OPT record; `zoneTransfer`
panics instead of returning the records of the last envelope. -/
theorem zoneTransfer_panics_without_error :
    (∀ envelope ∈ sampleOPTStream, envelope.Error = none) ∧
      zoneTransfer TypeToString (Except.ok sampleOPTStream)
        "example.com" "ns1.example.com" = none := by
  decide

/-- Claim C2, as amended: whenever `zoneTransfer` returns a non-nil error, the
result's records are the normalized records of the last envelope delivered
before the first one that reports an error; they are empty when the connection
setup failed or when no envelope came before the failing one. -/
theorem zoneTransfer_error_records (tbl : TypeTable) (tIn : Except GoError (List Envelope))
    (domain nameserver : String) (res : ZoneTransferResult) (err : GoError)
    (h : zoneTransfer tbl tIn domain nameserver = some (res, some err)) :
    match tIn with
    | Except.error _ => res.Records = []
    | Except.ok ch =>
      lastRecords tbl (beforeError ch) = some res.Records ∧
        (beforeError ch = [] → res.Records = []) := by
  cases tIn with
  | error e =>
    simp only [zoneTransfer, Option.some.injEq, Prod.mk.injEq] at h
    obtain ⟨h1, _⟩ := h
    subst h1
    rfl
  | ok ch =>
    simp only [zoneTransfer] at h
    obtain ⟨_, _, _, hrec⟩ := zoneTransferLoop_eq_some tbl ch _ res (some err) h
    rcases hrec with ⟨hnil, hr⟩ | ⟨hnn, hr⟩
    · simp only at hr
      exact ⟨by rw [hnil, hr]; rfl, fun _ => hr⟩
    · exact ⟨hr, fun hnil => absurd hnil hnn⟩

/-- Claim C2, witness: a first envelope with the SOA and an A record, then an
envelope that reports an error; the returned result holds the two records. -/
theorem zoneTransfer_error_records_witness :
    lastRecords TypeToString (beforeError sampleCutStream) =
        some [sampleSOARecord, sampleARecord] ∧
      (beforeError sampleCutStream = [] → [sampleSOARecord, sampleARecord] = []) :=
  zoneTransfer_error_records TypeToString (Except.ok sampleCutStream)
    "example.com" "ns1.example.com"
    { Domain := "example.com", Nameserver := "ns1.example.com",
      Records := [sampleSOARecord, sampleARecord] }
    "unexpected EOF" (by decide)

/-- Claim C2, counterexample: the second envelope reports an error, and the
result returned with that error holds the two records of the first envelope. -/
theorem zoneTransfer_error_keeps_records :
    zoneTransfer TypeToString (Except.ok sampleCutStream) "example.com" "ns1.example.com" =
      some ({ Domain := "example.com", Nameserver := "ns1.example.com",
              Records := [sampleSOARecord, sampleARecord] }, some "unexpected EOF") ∧
      [sampleSOARecord, sampleARecord] ≠ [] := by
  decide

/-- Claim C3, at the failing input: the first envelope holds an OPT record and
the second reports an error; `zoneTransfer` panics, returning neither a result
nor that error. -/
theorem zoneTransfer_panics_before_error :
    firstError sampleOPTCutStream = some "unexpected EOF" ∧
      zoneTransfer TypeToString (Except.ok sampleOPTCutStream)
        "example.com" "ns1.example.com" = none := by
  decide

/-! ## Facts about `getNameservers` -/

theorem TrimSuffix_dot (host : String) : strings.TrimSuffix host "." = stripRootDot host := by
  have hd : (".": String).data = ['.'] := rfl
  unfold strings.TrimSuffix stripRootDot
  rw [hd]
  by_cases h : host.data.getLast? = some '.'
  · have hs : ['.'] <:+ host.data := by
      obtain ⟨ys, hys⟩ := List.getLast?_eq_some_iff.mp h
      exact ⟨ys, hys.symm⟩
    rw [if_pos (List.isSuffixOf_iff_suffix.mpr hs), if_pos h]
    simp [List.dropLast_eq_take]
  · have hs : ¬ (['.'] <:+ host.data) := by
      rintro ⟨ys, hys⟩
      exact h (List.getLast?_eq_some_iff.mpr ⟨ys, hys.symm⟩)
    rw [if_neg (fun hc => hs (List.isSuffixOf_iff_suffix.mp hc)), if_neg h]

theorem collectNS_eq (rrs : List RR) (nameservers : List String) :
    collectNS rrs nameservers = nameservers ++ rrs.filterMap nameserverOf := by
  induction rrs generalizing nameservers with
  | nil => simp [collectNS]
  | cons ans rest ih =>
    unfold collectNS
    cases hk : ans.kind with
    | NS ns => simp [ih, nameserverOf, hk, TrimSuffix_dot]
    | other t => simp [ih, nameserverOf, hk]

/-- Claim C7: for a response with code success, `getNameservers` returns no
error and the nameservers of the NS records of the answer section, each without
its trailing root dot, in response order, other records skipped, nothing
removed or reordered. -/
theorem getNameservers_success (r : Msg) (h : r.Rcode = RcodeSuccess) :
    getNameservers (Except.ok r) = (r.Answer.filterMap nameserverOf, none) := by
  simp [getNameservers, h, collectNS_eq]

/-- Claim C7, witness: the answers ns1.example.com. and ns2.example.com. give
ns1.example.com and ns2.example.com. -/
theorem getNameservers_success_witness :
    getNameservers
        (Except.ok ⟨0, [sampleNS "ns1.example.com.", sampleNS "ns2.example.com."]⟩) =
      (["ns1.example.com", "ns2.example.com"], none) :=
  (getNameservers_success ⟨0, [sampleNS "ns1.example.com.", sampleNS "ns2.example.com."]⟩
    (by decide)).trans (by decide)

/-- Claim C8: `getNameservers` returns a non-nil error exactly when the exchange
failed or the response code is not success; such a failure is never returned as
the empty sequence with a nil error; and a successful response with an empty
answer section gives the empty sequence with no error. -/
theorem getNameservers_error_iff (exchange : Except GoError Msg) :
    ((getNameservers exchange).2 ≠ none ↔ exchangeFailed exchange) ∧
      (exchangeFailed exchange → getNameservers exchange ≠ ([], none)) ∧
      getNameservers (Except.ok { Rcode := RcodeSuccess, Answer := [] }) = ([], none) := by
  refine ⟨?_, ?_, by decide⟩
  · cases exchange with
    | error e => simp [getNameservers, exchangeFailed]
    | ok r =>
      by_cases hr : r.Rcode = RcodeSuccess
      · simp [getNameservers, exchangeFailed, hr]
      · simp [getNameservers, exchangeFailed, hr]
  · cases exchange with
    | error e => simp [getNameservers]
    | ok r =>
      intro hf
      have hr : r.Rcode ≠ RcodeSuccess := hf
      simp [getNameservers, hr]

/-! ## Facts about the domain loop -/

/-- The nameserver loop over transfers that all return: one result and one
call per nameserver, in order. -/
theorem transferAll_returning (zt : String → String → ZoneTransferResult × Option GoError)
    (domain : String) (nameservers : List String) (st : LoopState) :
    transferAll (fun d ns => some (zt d ns)) domain nameservers st =
      some { zoneTransferResults :=
               st.zoneTransferResults ++ nameservers.map (fun ns => (zt domain ns).1)
             calls := st.calls ++ nameservers.map (fun ns => Call.zoneTransfer domain ns) } := by
  induction nameservers generalizing st with
  | nil => simp [transferAll]
  | cons ns rest ih => simp [transferAll, ih]

theorem pair_transfers (domain : String) (nameservers : List String) :
    (nameservers.map (fun ns => Call.zoneTransfer domain ns)).filterMap Call.pair =
      nameservers.map (fun ns => (domain, ns)) := by
  induction nameservers with
  | nil => rfl
  | cons ns rest ih =>
    simp only [List.map_cons, List.filterMap_cons, Call.pair, ih]

/-- A token that holds an `@` splits into at least two fields, so that the
indices 0 and 1 are in bounds; the two fields are the domain and the nameserver
of the token. -/
theorem Split_at_fields (token : String) (h : strings.Contains token '@' = true) :
    (strings.Split token '@')[0]? = some (overrideDomain token) ∧
      (strings.Split token '@')[1]? = some (overrideNameserver token) := by
  have hmem : '@' ∈ token.data := by simpa [strings.Contains] using h
  have hlen := strings.length_splitChars '@' token.data
  have hpos : 0 < token.data.count '@' := List.count_pos_iff.mpr hmem
  have h0 := strings.splitChars_getD_zero '@' token.data
  have h1 := strings.splitChars_getD_one '@' token.data hmem
  unfold overrideDomain overrideNameserver
  rw [← h0, ← h1]
  cases hf : strings.splitChars '@' token.data with
  | nil => simp [hf] at hlen
  | cons f0 fs =>
    cases fs with
    | nil =>
      rw [hf] at hlen
      simp at hlen
      omega
    | cons f1 fs1 => simp [strings.Split, hf]

/-- The token `d@n` splits into the two fields `d` and `n`. -/
theorem Split_override (d n : String) (hd : '@' ∉ d.data) (hn : '@' ∉ n.data) :
    strings.Split (d ++ "@" ++ n) '@' = [d, n] := by
  have ha : ("@" : String).data = ['@'] := rfl
  have hdata : (d ++ "@" ++ n).data = d.data ++ '@' :: n.data := by
    simp [String.data_append, ha]
  unfold strings.Split
  rw [hdata, strings.splitChars_append_sep _ _ _ hd, strings.splitChars_of_not_mem _ _ hn]
  rfl

/-- For a token `d@n` with no `@` in `d` or `n`, and a transfer that returns,
the loop body makes exactly one call, the transfer of `d` from `n`, and appends
exactly its result; the resolver is not called. -/
theorem processDomain_override (gn : Resolver)
    (zt : String → String → ZoneTransferResult × Option GoError)
    (d n : String) (st : LoopState) (hd : '@' ∉ d.data) (hn : '@' ∉ n.data) :
    processDomain gn (fun a b => some (zt a b)) (d ++ "@" ++ n) st =
      some { zoneTransferResults := st.zoneTransferResults ++ [(zt d n).1]
             calls := st.calls ++ [Call.zoneTransfer d n] } := by
  have ha : ("@" : String).data = ['@'] := rfl
  have hne : ¬ (d ++ "@" ++ n = "") := by
    intro h
    have := congrArg String.data h
    simp [String.data_append, ha] at this
  have hc : strings.Contains (d ++ "@" ++ n) '@' = true := by
    simp [strings.Contains, String.data_append, ha]
  unfold processDomain
  rw [if_neg hne, if_pos hc]
  simp only [Split_override d n hd hn]
  simp [transferAll_returning]

/-- For "example.com@ns1.example.com" and a transfer that returns, the only
call is the transfer of example.com from ns1.example.com. -/
theorem processDomain_override_witness :
    processDomain (fun _ => ([], none))
        (fun a b => some ({ Domain := a, Nameserver := b, Records := [] }, none))
        "example.com@ns1.example.com" { zoneTransferResults := [], calls := [] } =
      some { zoneTransferResults :=
               [{ Domain := "example.com", Nameserver := "ns1.example.com", Records := [] }]
             calls := [Call.zoneTransfer "example.com" "ns1.example.com"] } :=
  processDomain_override (fun _ => ([], none))
    (fun a b => ({ Domain := a, Nameserver := b, Records := [] }, none))
    "example.com" "ns1.example.com" { zoneTransferResults := [], calls := [] }
    (by decide) (by decide)

/-- The loop body over transfers that all return: the results of the pairs the
token stands for are appended, and the transfers called are those pairs. -/
theorem processDomain_returning (gn : Resolver)
    (zt : String → String → ZoneTransferResult × Option GoError)
    (token : String) (st : LoopState) :
    ∃ st1, processDomain gn (fun a b => some (zt a b)) token st = some st1 ∧
      st1.zoneTransferResults =
        st.zoneTransferResults ++ (attempts gn token).map (fun p => (zt p.1 p.2).1) ∧
      st1.calls.filterMap Call.pair = st.calls.filterMap Call.pair ++ attempts gn token := by
  unfold processDomain attempts
  by_cases he : token = ""
  · exact ⟨st, by simp [he]⟩
  · rw [if_neg he, if_neg he]
    by_cases hc : strings.Contains token '@' = true
    · have hmem : '@' ∈ token.data := by simpa [strings.Contains] using hc
      obtain ⟨h0, h1⟩ := Split_at_fields token hc
      rw [if_pos hc, if_pos hmem]
      simp only [h0, h1, transferAll_returning]
      exact ⟨_, rfl, by simp, by simp [Call.pair]⟩
    · have hmem : ¬ '@' ∈ token.data := by simpa [strings.Contains] using hc
      rw [if_neg hc, if_neg hmem]
      rcases hg : gn token with ⟨nameservers, err⟩
      cases err with
      | some e => exact ⟨_, rfl, by simp, by simp [Call.pair]⟩
      | none =>
        simp only [transferAll_returning]
        refine ⟨_, rfl, by simp, ?_⟩
        simp only [List.filterMap_append, List.filterMap_cons, Call.pair, List.filterMap_nil,
          List.append_nil, pair_transfers]

theorem domainLoop_returning (gn : Resolver)
    (zt : String → String → ZoneTransferResult × Option GoError)
    (tokens : List String) (st : LoopState) :
    ∃ st1, domainLoop gn (fun a b => some (zt a b)) tokens st = some st1 ∧
      st1.zoneTransferResults = st.zoneTransferResults ++ aggregateReport gn zt tokens ∧
      st1.calls.filterMap Call.pair =
        st.calls.filterMap Call.pair ++ (tokens.map (attempts gn)).flatten := by
  induction tokens generalizing st with
  | nil => exact ⟨st, rfl, by simp [aggregateReport], by simp⟩
  | cons token rest ih =>
    obtain ⟨st1, h1, hr1, hc1⟩ := processDomain_returning gn zt token st
    obtain ⟨st2, h2, hr2, hc2⟩ := ih st1
    refine ⟨st2, ?_, ?_, ?_⟩
    · simp only [domainLoop, h1, h2]
    · rw [hr2, hr1]
      simp [aggregateReport]
    · rw [hc2, hc1]
      simp

/-- For every list of tokens, every resolver outcome and transfers that all
return, the loop started from the empty report ends with the report that holds,
tokens in input order and nameservers in order, the result of the transfer of
each attempted pair (none for an empty token or a failed resolution, one per
pair whether the transfer failed or not); the transfers it called are exactly
those pairs, so the report is as long as the list of pairs attempted. -/
theorem domainLoop_report (gn : Resolver)
    (zt : String → String → ZoneTransferResult × Option GoError) (tokens : List String) :
    ∃ st, domainLoop gn (fun a b => some (zt a b)) tokens
          { zoneTransferResults := [], calls := [] } = some st ∧
      st.zoneTransferResults = aggregateReport gn zt tokens ∧
      st.calls.filterMap Call.pair = (tokens.map (attempts gn)).flatten ∧
      st.zoneTransferResults.length = (st.calls.filterMap Call.pair).length := by
  obtain ⟨st, h, hr, hc⟩ :=
    domainLoop_returning gn zt tokens { zoneTransferResults := [], calls := [] }
  simp only [List.nil_append, List.filterMap_nil] at hr hc
  refine ⟨st, h, hr, hc, ?_⟩
  rw [hr, hc]
  simp [aggregateReport, List.length_flatten, Function.comp_def]

/-- The loop over a network on which every transfer returns: the report holds
the results of those transfers, pair by pair. -/
theorem run_of_returning (tbl : TypeTable) (net : Network) (tokens : List String)
    (zt : String → String → ZoneTransferResult × Option GoError)
    (h : ∀ domain ns, zoneTransfer tbl (net.In domain ns) domain ns = some (zt domain ns)) :
    ∃ st, run tbl net tokens = some st ∧
      st.zoneTransferResults =
        aggregateReport (fun domain => getNameservers (net.Exchange domain)) zt tokens := by
  have hz : (fun domain ns => zoneTransfer tbl (net.In domain ns) domain ns) =
      fun domain ns => some (zt domain ns) := by
    funext domain ns
    exact h domain ns
  obtain ⟨st, hst, hr, _⟩ := domainLoop_returning
    (fun domain => getNameservers (net.Exchange domain)) zt tokens
    { zoneTransferResults := [], calls := [] }
  refine ⟨st, ?_, by simpa using hr⟩
  unfold run
  rw [hz]
  exact hst

/-- Claim C9, at the failing input: the token "example.org@ns1.example.org"
splits into its domain and nameserver, the one transfer it stands for meets an
OPT record and panics, and the loop body panics with it: no result is appended.
The token "example.com@ns1.example.com", whose transfer returns, gives one
result and the single call of that transfer. -/
theorem runToken_override_panics :
    strings.Split "example.org@ns1.example.org" '@' = ["example.org", "ns1.example.org"] ∧
      zoneTransfer TypeToString (sampleNetwork.In "example.org" "ns1.example.org")
        "example.org" "ns1.example.org" = none ∧
      runToken TypeToString sampleNetwork "example.org@ns1.example.org"
        { zoneTransferResults := [], calls := [] } = none ∧
      runToken TypeToString sampleNetwork "example.com@ns1.example.com"
          { zoneTransferResults := [], calls := [] } =
        some { zoneTransferResults := [sampleResult]
               calls := [Call.zoneTransfer "example.com" "ns1.example.com"] } := by
  decide

/-- Claim C10, at the failing input: over the tokens "example.com@ns1.example.com"
and the empty token the loop ends with the one result of the one pair; with the
token "example.org" added, whose resolved nameserver delivers an OPT record,
the second transfer panics and the loop ends without any report. -/
theorem run_panics :
    run TypeToString sampleNetwork ["example.com@ns1.example.com", ""] =
        some { zoneTransferResults := [sampleResult]
               calls := [Call.zoneTransfer "example.com" "ns1.example.com"] } ∧
      getNameservers (sampleNetwork.Exchange "example.org") = (["ns1.example.org"], none) ∧
      run TypeToString sampleNetwork ["example.com@ns1.example.com", "", "example.org"] =
        none := by
  decide

end Axfr
